import Mathlib

/-!
# Hopper core: shallow embedding and verification

A shallow embedding of the core of the `hopper` crate (bounded deque,
producer-side placement engine / disk spill writer, consumer-side reader),
translated from `src/common.rs`, `src/deque.rs`, `src/private.rs`,
`src/sender.rs` and `src/receiver.rs`.

Conventions:
* Machine integers (`usize`, `u32`, `u8`) are modelled as `Nat`; wrapping
  arithmetic is written explicitly (`% 2 ^ 64`, `% 2 ^ 32`).
* A Rust panic (out-of-bounds index/slice, `unwrap`, `expect`, failing
  `assert!`) is modelled by returning `none` from an `Option`-valued
  function.
* Serialization (`bincode` + deflate) is opaque: functions are parameterized
  by an arbitrary `encode : T → List Nat` (the compressed byte buffer) and,
  on the read side, an arbitrary `decode : List Nat → Option T`.
* The filesystem is a map from queue-file sequence numbers to file states;
  `BufWriter` buffering is collapsed (writes reach the file immediately and
  `flush` commits nothing extra), which is invisible to the properties
  proved here.
* File I/O success is deterministic in the model except where a claim is
  about I/O failure, in which case an explicit oracle records which
  operations succeed.
-/

namespace Hopper

/-- Byte slice `l[a..b]` with Rust semantics: panics (`none`) unless
`a ≤ b ≤ l.length`. -/
def rustSlice (l : List Nat) (a b : Nat) : Option (List Nat) :=
  if a ≤ b ∧ b ≤ l.length then some ((l.drop a).take (b - a)) else none

/-- From `src/common.rs` lines 4-7:
`u32::from(v[3]) + (u32::from(v[2]) << 8) + (u32::from(v[1]) << 24) + (u32::from(v[0]) << 16)`.
Indexing `v[i]` panics (`none`) when `i` is out of bounds. Note the
scrambled shift amounts (24 and 16 swapped relative to big-endian). -/
def u8tou32abe (v : List Nat) : Option Nat :=
  match v[3]?, v[2]?, v[1]?, v[0]? with
  | some v3, some v2, some v1, some v0 =>
      some (v3 + v2 * 2 ^ 8 + v1 * 2 ^ 24 + v0 * 2 ^ 16)
  | _, _, _, _ => none

/-- From `src/common.rs` lines 61-63 (`HIndex::receiver_idx`):
`u8tou32abe(&self.block[4..7])`. The slice `block[4..7]` has 3 bytes. -/
def receiverIdx (block : List Nat) : Option Nat :=
  match rustSlice block 4 7 with
  | some s => u8tou32abe s
  | none => none

/-- From `src/common.rs` lines 28-47 (`HIndex::new`): the index file is
opened with `create(true)` (missing file starts empty) and `set_len(8)`
(`size_of::<u32>() * 2`), which truncates or zero-extends to 8 bytes;
the result is memory-mapped as `block`. -/
def hindexNewBlock (prior : Option (List Nat)) : List Nat :=
  let bs := prior.getD []
  bs.take 8 ++ List.replicate (8 - bs.length) 0

/-- Receiver configuration, from `src/common.rs` (`Config`). -/
structure RConfig where
  maximumQueueInBytes : Nat
  deriving Repr, DecidableEq

/-- Consumer state, from `src/receiver.rs` (`Receiver<T>`): the active
memory-mapped file `fp`, the cursor `offset`, and the config. The
`HIndex` handle is only consulted on the (always-panicking) reopen path. -/
structure RecvState where
  config : RConfig
  fp : List Nat
  offset : Nat
  deriving Repr, DecidableEq

/-- From `src/receiver.rs` lines 31-54 (`Receiver::new`): builds the
`HIndex` (8-byte block), asks it for `receiver_idx()` — which slices
`block[4..7]` and then indexes element 3 of that 3-byte slice — then would
open and map the queue file named by that index. `files` maps a sequence
number to the bytes of the queue file with that name. -/
def receiverNew (config : RConfig) (priorIndexBytes : Option (List Nat))
    (files : Nat → Option (List Nat)) : Option RecvState :=
  let block := hindexNewBlock priorIndexBytes
  match receiverIdx block with
  | none => none
  | some seqNum =>
      match files seqNum with
      | none => none
      | some bytes => some { config := config, fp := bytes, offset := 0 }

/-- Filesystem side effects a consumer step may perform; used to state what
the reader does (and does not do) to the queue directory. -/
inductive FsOp where
  | openFile (seq : Nat)
  | deleteFile (seq : Nat)
  | incDiskFiles
  deriving Repr, DecidableEq

/-- Outcome of one iteration of the `loop` in `next_value`
(`src/receiver.rs` lines 70-98). -/
inductive RNext (T : Type) where
  /-- A Rust panic (out-of-bounds slice/index, panicking deserialize,
  or the reopen path that calls the panicking `receiver_idx`). -/
  | panic
  /-- `self.fp.get(..)?` returned `None`: `next_value` returns `None`. -/
  | outOfRange
  /-- `return Some(event)` with the updated receiver state. -/
  | yield (v : T) (st : RecvState)
  /-- `continue` with the updated receiver state. -/
  | cont (st : RecvState)

/-- One iteration of the loop body of `Receiver::next_value`
(`src/receiver.rs` lines 73-98), paired with the list of filesystem
operations it performs (recorded for specification purposes).

Line-by-line: if `offset > maximum_queue_in_bytes` the code calls
`hindex.receiver_idx()`, which always panics (3-byte slice indexed at 3).
Otherwise `payload_size = u8tou32abe(&fp[offset..offset + 31])`
(panics unless `offset + 31 ≤ fp.len()`), `offset += 31`,
`read_bit_idx = offset + 1`, `offset += 1`; if `fp[read_bit_idx] == 0`
the byte is set to 1 and the payload `fp.get(offset..offset+size)?` is
deserialized (`?` yields `outOfRange`, a failed deserialize panics);
otherwise the record is skipped and the loop continues. -/
def nextValueBody {T : Type} (decode : List Nat → Option T) (st : RecvState) :
    RNext T × List FsOp :=
  if st.offset > st.config.maximumQueueInBytes then
    -- `let seq_num = self.hindex.receiver_idx();` panics before
    -- `set_receiver_idx` or `self.open()` can run, so no file operation
    -- is performed on this path.
    (RNext.panic, [])
  else
    match rustSlice st.fp st.offset (st.offset + 31) with
    | none => (RNext.panic, [])
    | some sizeSlice =>
        match u8tou32abe sizeSlice with
        | none => (RNext.panic, [])
        | some payloadSize =>
            -- offset += 31; read_bit_idx = offset + 1; offset += 1
            let readBitIdx := st.offset + 31 + 1
            let offset := st.offset + 31 + 1
            match st.fp[readBitIdx]? with
            | none => (RNext.panic, [])
            | some bit =>
                if bit = 0 then
                  let fp := st.fp.set readBitIdx 1
                  if offset + payloadSize ≤ fp.length then
                    match decode ((fp.drop offset).take payloadSize) with
                    | some v =>
                        (RNext.yield v
                          { st with fp := fp, offset := offset + payloadSize },
                         [])
                    | none => (RNext.panic, [])
                  else
                    (RNext.outOfRange, [])
                else
                  (RNext.cont { st with offset := offset + payloadSize }, [])

/-- Result of `InnerQueue::push_back` (`src/deque.rs` lines 80-104):
`Ok(must_wake_dequeuers)` or `Err(Error::Full(elem))`, returning ownership. -/
inductive PushResult (T : Type) where
  | ok (mustWake : Bool)
  | full (elem : T)
  deriving Repr

/-- The bounded ring deque of `src/deque.rs` (`InnerQueue<T, S>` minus the
producer-shared state `S`, which the sender model carries separately):
a fixed array of `capacity` slots (`*const T`s, null = `none`), the back
offset guarded by the back lock, the front offset guarded by the front
lock, and the atomic size. -/
structure DequeState (T : Type) where
  capacity : Nat
  data : List (Option T)
  backOffset : Nat
  frontOffset : Nat
  size : Nat
  deriving Repr

/-- From `src/deque.rs` lines 42-62 (`InnerQueue::with_capacity`; the code
asserts `capacity > 0`): all slots null, offsets 0, size 0. -/
def dequeInit (T : Type) (capacity : Nat) : DequeState T :=
  { capacity := capacity
    data := List.replicate capacity none
    backOffset := 0
    frontOffset := 0
    size := 0 }

/-- From `src/deque.rs` lines 80-104 (`InnerQueue::push_back`): if the slot
under the back offset is non-null, fail with `Full(elem)` leaving the
queue unchanged; otherwise store the element there, advance the back
offset modulo the capacity, bump the size, and report
`must_wake_dequeuers = (previous size == 0)`. -/
def pushBack {T : Type} (q : DequeState T) (elem : T) :
    DequeState T × PushResult T :=
  if (q.data.getD q.backOffset none).isSome then
    (q, PushResult.full elem)
  else
    ({ q with
        data := q.data.set q.backOffset (some elem)
        backOffset := (q.backOffset + 1) % q.capacity
        size := q.size + 1 },
     PushResult.ok (q.size == 0))

/-- Well-formedness of a deque state: the representation invariant the ring
buffer maintains (spec §3 invariants 1-2): sizes and offsets in range, the
back offset one past the occupied run, and slot `i` filled exactly when it
lies in the run of `size` slots starting at the front offset. -/
def DequeWf {T : Type} (q : DequeState T) : Prop :=
  0 < q.capacity ∧ q.data.length = q.capacity ∧
  q.backOffset < q.capacity ∧ q.frontOffset < q.capacity ∧
  q.size ≤ q.capacity ∧
  q.backOffset = (q.frontOffset + q.size) % q.capacity ∧
  ∀ i, i < q.capacity →
    ((q.data.getD i none).isSome ↔
      ∃ j, j < q.size ∧ (q.frontOffset + j) % q.capacity = i)

instance {T : Type} (q : DequeState T) : Decidable (DequeWf q) := by
  unfold DequeWf; infer_instance

/-- Witness deque for `pushBack_spec`: capacity 2, one occupied slot. -/
def dequeWitness : DequeState Nat :=
  { capacity := 2, data := [some 1, none], backOffset := 1,
    frontOffset := 0, size := 1 }

/-- From `src/private.rs` lines 6-10: the placement variant, the contract
between producer and consumer. -/
inductive Placement (T : Type) where
  | Memory (elem : T)
  | Disk (n : Nat)
  deriving Repr

/-- From `src/private.rs` lines 12-19 (`Placement::extract`). -/
def Placement.extract {T : Type} : Placement T → Option T
  | Placement.Memory elem => some elem
  | Placement.Disk _ => none

/-- From `src/sender.rs` line 150: `fp.write_u32::<BigEndian>(payload_len as u32)`.
The four big-endian bytes of `n` truncated to `u32`. -/
def be32 (n : Nat) : List Nat :=
  let m := n % 2 ^ 32
  [m / 2 ^ 24 % 2 ^ 8, m / 2 ^ 16 % 2 ^ 8, m / 2 ^ 8 % 2 ^ 8, m % 2 ^ 8]

/-- One queue file in the data directory: its byte contents and whether its
permissions have been set read-only ("sealed"). -/
structure QFile where
  contents : List Nat
  sealed : Bool
  deriving Repr, DecidableEq

/-- The queue directory: a map from file sequence number (the file's name)
to the file, `none` when no such file exists. -/
def Fs : Type := Nat → Option QFile

/-- `fs::set_permissions(path, readonly)` guarded by `fs::metadata(path)`
(`src/sender.rs` lines 119-123): seal the file if it exists, ignore the
error if it does not. -/
def fsSeal (fs : Fs) (k : Nat) : Fs := fun j =>
  if j = k then
    match fs k with
    | some f => some { f with sealed := true }
    | none => none
  else fs j

/-- `OpenOptions::new().append(true).create(true).open(path)`
(`src/sender.rs` lines 130-134): keep an existing file, create an empty
one otherwise. -/
def fsCreateAppendOpen (fs : Fs) (k : Nat) : Fs := fun j =>
  if j = k then some ((fs k).getD { contents := [], sealed := false })
  else fs j

/-- Append bytes to the file the open handle refers to. -/
def fsAppend (fs : Fs) (k : Nat) (bytes : List Nat) : Fs := fun j =>
  if j = k then
    match fs k with
    | some f => some { f with contents := f.contents ++ bytes }
    | none => none
  else fs j

/-- The error enum of `src/lib.rs` lines 100-111. -/
inductive HError where
  | noSuchDirectory
  | ioError
  | noFlush
  | full
  deriving Repr, DecidableEq

/-- Which of the fallible I/O operations inside `write_to_disk` succeed:
the `open` of a fresh queue file (`src/sender.rs` line 130), the 4-byte
length write (line 150), and the payload write (line 156). -/
structure IOOracle where
  openOk : Bool
  writeLenOk : Bool
  writePayloadOk : Bool
  deriving Repr, DecidableEq

/-- `usize::wrapping_add(1)` modulus. -/
def USIZE : Nat := 2 ^ 64

/-- Producer-side state: the `Sender` fields (`max_disk_bytes`, the shared
`disk_files_capacity` atomic), the `SenderSync` state behind the back lock
(`sender_fp` as the sequence number of the file the open handle refers to,
`bytes_written`, `sender_seq_num`, `path` as the sequence number it names,
`total_disk_writes`), the shared deque, and the queue directory.
`ghostDiskWrites` is a history variable, not present in the code: it
counts the `write_to_disk` calls that returned `Ok`, i.e. the values paged
to disk, so that spec §3 invariant 4 can be stated. -/
structure SenderState (T : Type) where
  maxDiskBytes : Nat
  deque : DequeState (Placement T)
  fs : Fs
  diskFilesCapacity : Nat
  fpSeq : Option Nat
  bytesWritten : Nat
  senderSeqNum : Nat
  pathSeq : Nat
  totalDiskWrites : Nat
  ghostDiskWrites : Nat

/-- The rollover block of `Sender::write_to_disk` (`src/sender.rs` lines
109-145): compute the hypothetical new size `bytes_written + payload_len + 4`;
if it exceeds `max_disk_bytes` or no file is open, seal the current path,
bump `sender_seq_num` (wrapping), point `path` at the new sequence number,
and then either fail with `Full` (remaining-disk-files counter is 0), or
decrement the counter, create/open the new file and reset `bytes_written`,
or fail with `IoError` when the open fails. -/
def writePrep {T : Type} (st : SenderState T) (event : T) (payloadLen : Nat)
    (io : IOOracle) : SenderState T × Option (T × HError) :=
  if st.bytesWritten + payloadLen + 4 > st.maxDiskBytes ∨ st.fpSeq = none then
    let st₁ := { st with
        fs := fsSeal st.fs st.pathSeq
        senderSeqNum := (st.senderSeqNum + 1) % USIZE
        pathSeq := (st.senderSeqNum + 1) % USIZE }
    if st₁.diskFilesCapacity = 0 then
      (st₁, some (event, HError.full))
    else if io.openOk then
      ({ st₁ with
          diskFilesCapacity := st₁.diskFilesCapacity - 1
          fs := fsCreateAppendOpen st₁.fs st₁.pathSeq
          fpSeq := some st₁.pathSeq
          bytesWritten := 0 }, none)
    else
      (st₁, some (event, HError.ioError))
  else (st, none)

/-- `Sender::write_to_disk` (`src/sender.rs` lines 99-168): serialize the
event (opaque `encode`), run the rollover block, then write the 4-byte
big-endian length followed by the payload; on full success add
`4 + payload_len` to `bytes_written`. Each failing write surfaces as
`(event, IoError)`. The `assert!(sender_fp.is_some())` at line 147 cannot
fire (`writeToDisk_fpSeq_isSome`); the impossible branch returns the state
unchanged. -/
def writeToDisk {T : Type} (encode : T → List Nat) (st : SenderState T)
    (event : T) (io : IOOracle) : SenderState T × Option (T × HError) :=
  let buf := encode event
  let payloadLen := buf.length
  let r := writePrep st event payloadLen io
  match r.2 with
  | some e => (r.1, some e)
  | none =>
      match r.1.fpSeq with
      | none => (r.1, none) -- unreachable: assert!(sender_fp.is_some())
      | some k =>
          if io.writeLenOk then
            let st₂ := { r.1 with fs := fsAppend r.1.fs k (be32 payloadLen) }
            if io.writePayloadOk then
              ({ st₂ with
                  fs := fsAppend st₂.fs k buf
                  bytesWritten := st₂.bytesWritten + (4 + payloadLen)
                  ghostDiskWrites := st₂.ghostDiskWrites + 1 }, none)
            else (st₂, some (event, HError.ioError))
          else (r.1, some (event, HError.ioError))

/-- `Sender::send` (`src/sender.rs` lines 214-289). Memory mode
(`total_disk_writes == 0`): try `push_back(Memory(event))`; on `Full`,
write the extracted value to disk and increment `total_disk_writes`.
Disk mode: write to disk, increment `total_disk_writes`, flush the file
buffer (a no-op here), then try `push_back(Disk(total_disk_writes))`; on
success reset the counter. `notify_not_empty` is a condition-variable
signal with no further state. -/
def send {T : Type} (encode : T → List Nat) (st : SenderState T) (event : T)
    (io : IOOracle) : SenderState T × Option (T × HError) :=
  if st.totalDiskWrites = 0 then
    match pushBack st.deque (Placement.Memory event) with
    | (dq, PushResult.ok _mustWake) => ({ st with deque := dq }, none)
    | (dq, PushResult.full placedEvent) =>
        -- `placed_event.extract().unwrap()`: the rejected placement is the
        -- `Memory(event)` just offered, so `extract` is `some event`.
        match placedEvent.extract with
        | some ev =>
            let r := writeToDisk encode { st with deque := dq } ev io
            match r.2 with
            | some e => (r.1, some e)
            | none =>
                ({ r.1 with totalDiskWrites := r.1.totalDiskWrites + 1 },
                 none)
        | none => ({ st with deque := dq }, none) -- unreachable (unwrap)
  else
    let r := writeToDisk encode st event io
    match r.2 with
    | some e => (r.1, some e)
    | none =>
        let st₂ := { r.1 with totalDiskWrites := r.1.totalDiskWrites + 1 }
        match pushBack st₂.deque (Placement.Disk st₂.totalDiskWrites) with
        | (dq, PushResult.ok _mw) =>
            ({ st₂ with deque := dq, totalDiskWrites := 0 }, none)
        | (_, PushResult.full _) => (st₂, none)

/-- `Sender::flush` (`src/sender.rs` lines 176-204): under the back lock,
if `total_disk_writes != 0`, assert a file is open (`none` models the
panic of `assert!`/`expect` when it is not), commit the file buffer
(a no-op here), and attempt `push_back(Disk(total_disk_writes))`: on
success zero the counter and signal, on `Full` surface `NoFlush`. -/
def flush {T : Type} (st : SenderState T) :
    Option (SenderState T × Option HError) :=
  if st.totalDiskWrites ≠ 0 then
    if st.fpSeq.isNone then none
    else
      match pushBack st.deque (Placement.Disk st.totalDiskWrites) with
      | (dq, PushResult.ok _mw) =>
          some ({ st with deque := dq, totalDiskWrites := 0 }, none)
      | (_, PushResult.full _) => some (st, some HError.noFlush)
  else some (st, none)

/-- The producer-side step relation: states reachable from an empty deque
(`with_capacity` requires a positive capacity) with
`total_disk_writes = 0` by any sequence of `send` and `flush` calls, with
arbitrary values and I/O outcomes. -/
inductive Reach {T : Type} (encode : T → List Nat) : SenderState T → Prop
  | init (maxDiskBytes capacity : Nat) (fs : Fs) (diskFilesCapacity : Nat)
      (fpSeq : Option Nat) (seqNum pathSeq : Nat) (hC : 0 < capacity) :
      Reach encode
        { maxDiskBytes := maxDiskBytes
          deque := dequeInit (Placement T) capacity
          fs := fs
          diskFilesCapacity := diskFilesCapacity
          fpSeq := fpSeq
          bytesWritten := 0
          senderSeqNum := seqNum
          pathSeq := pathSeq
          totalDiskWrites := 0
          ghostDiskWrites := 0 }
  | stepSend (st : SenderState T) (v : T) (io : IOOracle) :
      Reach encode st → Reach encode (send encode st v io).1
  | stepFlush (st st' : SenderState T) (e : Option HError) :
      Reach encode st → flush st = some (st', e) → Reach encode st'

/-- The requirement spec §3 invariant 3 puts on one deque entry: a
non-`Memory` entry is `Disk(n)` with `n ≥ 1`. -/
def diskEntryPos {T : Type} : Option (Placement T) → Prop
  | some (Placement.Disk n) => 1 ≤ n
  | _ => True

/-- The disk-run length announced by a deque slot (0 for empty slots and
`Memory` entries). -/
def diskRun {T : Type} : Option (Placement T) → Nat
  | some (Placement.Disk n) => n
  | _ => 0

/-- Sum of the `Disk(n)` run lengths currently in the deque. -/
def sumDisk {T : Type} (q : DequeState (Placement T)) : Nat :=
  (q.data.map diskRun).sum

/-- The producer-side invariant of spec §3 (invariants 3 and 4), plus the
structural deque facts its preservation proof needs. -/
def SendInv {T : Type} (st : SenderState T) : Prop :=
  st.deque.data.length = st.deque.capacity ∧
  st.deque.backOffset < st.deque.capacity ∧
  0 < st.deque.capacity ∧
  (∀ o ∈ st.deque.data, diskEntryPos o) ∧
  st.ghostDiskWrites = sumDisk st.deque + st.totalDiskWrites

/-- Witness producer state: disk mode (`total_disk_writes = 1`), a file
open at sequence 0 with 10 bytes already written, a 5-byte file cap (so
any further write must roll over), and no remaining disk files. -/
def senderWitness : SenderState Nat :=
  { maxDiskBytes := 5
    deque := dequeInit (Placement Nat) 1
    fs := fun _ => none
    diskFilesCapacity := 0
    fpSeq := some 0
    bytesWritten := 10
    senderSeqNum := 0
    pathSeq := 0
    totalDiskWrites := 1
    ghostDiskWrites := 1 }

/-- The empty-deque state the witness for the reachability invariant
starts from. -/
def reachWitnessState : SenderState Nat :=
  { maxDiskBytes := 5
    deque := dequeInit (Placement Nat) 1
    fs := fun _ => none
    diskFilesCapacity := 2
    fpSeq := some 0
    bytesWritten := 0
    senderSeqNum := 0
    pathSeq := 0
    totalDiskWrites := 0
    ghostDiskWrites := 0 }

/-! ## Theorems -/

/-- `receiver_idx` always panics: `block[4..7]` is a 3-byte slice (when the
slice itself is in bounds) and `u8tou32abe` unconditionally reads index 3
of its argument. -/
theorem receiverIdx_eq_none (block : List Nat) : receiverIdx block = none := by
  unfold receiverIdx rustSlice
  by_cases h : 4 ≤ 7 ∧ 7 ≤ block.length
  · rw [if_pos h]
    show u8tou32abe ((block.drop 4).take (7 - 4)) = none
    unfold u8tou32abe
    have h3 : ((block.drop 4).take (7 - 4))[3]? = none := by
      rw [List.getElem?_eq_none_iff]
      simp only [List.length_take, List.length_drop]
      omega
    rw [h3]
  · rw [if_neg h]

/-- C3: Constructing a Receiver always fails by an out-of-bounds slice
access: `Receiver::new` calls `HIndex::receiver_idx`, which passes the
3-byte slice `block[4..7]` to `u8tou32abe`, and `u8tou32abe`
unconditionally indexes element 3 of its argument; so for every input
directory (any prior index-file contents, any set of queue files) the
receiver constructor panics (`none`) rather than returning a Receiver. -/
theorem receiverNew_always_panics (config : RConfig)
    (priorIndexBytes : Option (List Nat)) (files : Nat → Option (List Nat)) :
    receiverNew config priorIndexBytes files = none := by
  simp only [receiverNew, receiverIdx_eq_none]

/-- C1: the consumer's iterator cannot yield the values sent by a producer
— in the shipped code it cannot yield anything: evaluated on the state a
fresh channel produces (index file newly created by `HIndex::new`, hence
`prior = none`; queue file `0` created empty by `Sender::new`), receiver
construction panics in `receiver_idx`, so no iterator ever exists and no
sent value is ever yielded. -/
theorem receiverNew_fails_on_fresh_channel :
    receiverNew ⟨1048576⟩ none (fun _ => some []) = none := by
  rfl

/-- C2: the shipped `next_value` is not the two-state deque/disk loop: it
scans the memory-mapped file directly. Evaluated on a concrete receiver
state (33 zero bytes, offset 0), one loop iteration decodes a length from
the file bytes, flips the per-record read bit at offset 32, and yields the
decoded payload — consulting no deque and no pending-disk counter (neither
exists in the receiver's state). -/
theorem nextValueBody_scans_file :
    nextValueBody (fun l => some l.length)
      { config := ⟨1000⟩, fp := List.replicate 33 0, offset := 0 } =
    (RNext.yield 0
      { config := ⟨1000⟩, fp := (List.replicate 33 0).set 32 1, offset := 32 },
     []) := by
  rfl

/-- C4: the record length prefix does not round-trip: the producer writes
the length `65536` as the big-endian bytes `[0, 1, 0, 0]`, but the
consumer's `u8tou32abe` (shift amounts 24 and 16 swapped) decodes those
bytes to `16777216`, not `65536`. -/
theorem length_prefix_roundtrip_fails :
    u8tou32abe (be32 65536) = some 16777216 ∧ (16777216 : Nat) ≠ 65536 := by
  constructor
  · rfl
  · decide

/-- C5: the consumer never deletes a queue file (and never increments the
remaining-disk-files counter): every path through one iteration of
`next_value` performs no filesystem operation at all. -/
theorem nextValue_performs_no_fs_ops {T : Type} (decode : List Nat → Option T)
    (st : RecvState) : (nextValueBody decode st).2 = [] := by
  unfold nextValueBody
  repeat' (first | rfl | split | dsimp only)

/-- In a well-formed deque the slot under the back offset is occupied
exactly when the deque is full. -/
theorem wf_back_slot_isSome_iff {T : Type} (q : DequeState T)
    (h : DequeWf q) : (q.data.getD q.backOffset none).isSome ↔
      q.size = q.capacity := by
  obtain ⟨hC, _hlen, hb, hf, hs, hbf, hocc⟩ := h
  rw [hocc _ hb]
  constructor
  · rintro ⟨j, hj, hje⟩
    by_contra hne
    have hlt : q.size < q.capacity := lt_of_le_of_ne hs hne
    rw [hbf] at hje
    have hmod : j ≡ q.size [MOD q.capacity] :=
      Nat.ModEq.add_left_cancel' q.frontOffset hje
    have hdvd : q.capacity ∣ q.size - j :=
      (Nat.modEq_iff_dvd' (le_of_lt hj)).mp hmod
    have hpos : 0 < q.size - j := by omega
    have := Nat.le_of_dvd hpos hdvd
    omega
  · intro hsz
    refine ⟨0, by omega, ?_⟩
    rw [hbf, hsz, Nat.add_zero, Nat.add_mod_right, Nat.mod_eq_of_lt hf]

/-- C10: for a deque of capacity `C`, `push_back` writes the value into the
slot at the back offset `b`, advances `b` modulo `C`, and increments the
size, returning `must_wake = (previous size == 0)`; it fails with
`Full(value)`, returning ownership and leaving the deque unchanged,
exactly when `size < C` and the slot under `b` is empty fails. -/
theorem pushBack_spec {T : Type} (q : DequeState T) (v : T) (h : DequeWf q) :
    ((pushBack q v).2 = PushResult.full v ↔
        ¬(q.size < q.capacity ∧ q.data.getD q.backOffset none = none)) ∧
    ((pushBack q v).2 = PushResult.full v → (pushBack q v).1 = q) ∧
    (∀ mw, (pushBack q v).2 = PushResult.ok mw →
        mw = (q.size == 0) ∧
        (pushBack q v).1.data = q.data.set q.backOffset (some v) ∧
        (pushBack q v).1.backOffset = (q.backOffset + 1) % q.capacity ∧
        (pushBack q v).1.size = q.size + 1 ∧
        (pushBack q v).1.frontOffset = q.frontOffset ∧
        (pushBack q v).1.capacity = q.capacity) := by
  have hsz := wf_back_slot_isSome_iff q h
  obtain ⟨hC, hlen, hb, hf, hs, hbf, hocc⟩ := h
  unfold pushBack
  by_cases hslot : (q.data.getD q.backOffset none).isSome
  · rw [if_pos hslot]
    refine ⟨?_, fun _ => rfl, fun mw hmw => by simp at hmw⟩
    simp only [true_iff]
    have : q.size = q.capacity := hsz.mp hslot
    intro hcontra
    omega
  · rw [if_neg hslot]
    have hnone : q.data.getD q.backOffset none = none :=
      Option.not_isSome_iff_eq_none.mp hslot
    have hlt : q.size < q.capacity := by
      rcases Nat.lt_or_ge q.size q.capacity with h' | h'
      · exact h'
      · exact absurd (hsz.mpr (Nat.le_antisymm hs h')) hslot
    constructor
    · constructor
      · intro hx; simp at hx
      · intro hx; exact absurd ⟨hlt, hnone⟩ hx
    · exact ⟨fun hx => by simp at hx,
        fun mw hmw => ⟨by injection hmw with h'; exact h'.symm,
          rfl, rfl, rfl, rfl, rfl⟩⟩

/-- Witness: `pushBack_spec` applied at a concrete well-formed deque. -/
theorem pushBack_spec_witness :
    DequeWf dequeWitness ∧
    (((pushBack dequeWitness 7).2 = PushResult.full 7 ↔
        ¬(dequeWitness.size < dequeWitness.capacity ∧
          dequeWitness.data.getD dequeWitness.backOffset none = none)) ∧
     ((pushBack dequeWitness 7).2 = PushResult.full 7 →
        (pushBack dequeWitness 7).1 = dequeWitness) ∧
     (∀ mw, (pushBack dequeWitness 7).2 = PushResult.ok mw →
        mw = (dequeWitness.size == 0) ∧
        (pushBack dequeWitness 7).1.data =
          dequeWitness.data.set dequeWitness.backOffset (some 7) ∧
        (pushBack dequeWitness 7).1.backOffset =
          (dequeWitness.backOffset + 1) % dequeWitness.capacity ∧
        (pushBack dequeWitness 7).1.size = dequeWitness.size + 1 ∧
        (pushBack dequeWitness 7).1.frontOffset = dequeWitness.frontOffset ∧
        (pushBack dequeWitness 7).1.capacity = dequeWitness.capacity)) :=
  ⟨by decide, pushBack_spec dequeWitness 7 (by decide)⟩

/-- Sealing a file changes permissions only, never contents. -/
theorem fsSeal_contents (fs : Fs) (k j : Nat) :
    (fsSeal fs k j).map QFile.contents = (fs j).map QFile.contents := by
  unfold fsSeal
  split
  · next h => subst h; cases fs j <;> rfl
  · rfl

/-- Appending to a file never changes its sealed flag (or any other
file's state). -/
theorem fsAppend_sealed (fs : Fs) (k : Nat) (bytes : List Nat) (j : Nat) :
    (fsAppend fs k bytes j).map QFile.sealed = (fs j).map QFile.sealed := by
  unfold fsAppend
  split
  · next h => subst h; cases fs j <;> rfl
  · rfl

/-- Opening with `create(true)`/`append(true)` keeps an existing file. -/
theorem fsCreateAppendOpen_of_some (fs : Fs) (k j : Nat) (f : QFile)
    (h : fs j = some f) : fsCreateAppendOpen fs k j = some f := by
  unfold fsCreateAppendOpen
  split
  · next hk => subst hk; rw [h]; rfl
  · exact h

/-- Sealing an existing file sets its sealed flag. -/
theorem fsSeal_of_some (fs : Fs) (k : Nat) (f : QFile) (h : fs k = some f) :
    fsSeal fs k k = some { f with sealed := true } := by
  unfold fsSeal
  rw [if_pos rfl, h]

/-- The rollover block when no rollover is needed. -/
theorem writePrep_eval_noroll {T : Type} (st : SenderState T) (v : T)
    (L : Nat) (io : IOOracle)
    (h : ¬(st.bytesWritten + L + 4 > st.maxDiskBytes ∨ st.fpSeq = none)) :
    writePrep st v L io = (st, none) := by
  unfold writePrep
  rw [if_neg h]

/-- The rollover block when rollover fires and the remaining-disk-files
counter reads 0: seal, bump the sequence number, fail with `Full`. -/
theorem writePrep_eval_full {T : Type} (st : SenderState T) (v : T)
    (L : Nat) (io : IOOracle)
    (h : st.bytesWritten + L + 4 > st.maxDiskBytes ∨ st.fpSeq = none)
    (hcap : st.diskFilesCapacity = 0) :
    writePrep st v L io =
      ({ st with
          fs := fsSeal st.fs st.pathSeq
          senderSeqNum := (st.senderSeqNum + 1) % USIZE
          pathSeq := (st.senderSeqNum + 1) % USIZE },
       some (v, HError.full)) := by
  unfold writePrep
  rw [if_pos h, if_pos hcap]

/-- The rollover block when rollover fires, budget remains and the open
succeeds. -/
theorem writePrep_eval_open {T : Type} (st : SenderState T) (v : T)
    (L : Nat) (io : IOOracle)
    (h : st.bytesWritten + L + 4 > st.maxDiskBytes ∨ st.fpSeq = none)
    (hcap : st.diskFilesCapacity ≠ 0) (hopen : io.openOk = true) :
    writePrep st v L io =
      ({ st with
          fs := fsCreateAppendOpen (fsSeal st.fs st.pathSeq)
            ((st.senderSeqNum + 1) % USIZE)
          senderSeqNum := (st.senderSeqNum + 1) % USIZE
          pathSeq := (st.senderSeqNum + 1) % USIZE
          diskFilesCapacity := st.diskFilesCapacity - 1
          fpSeq := some ((st.senderSeqNum + 1) % USIZE)
          bytesWritten := 0 }, none) := by
  unfold writePrep
  rw [if_pos h, if_neg hcap, if_pos hopen]

/-- The rollover block when rollover fires, budget remains and the open
fails. -/
theorem writePrep_eval_openfail {T : Type} (st : SenderState T) (v : T)
    (L : Nat) (io : IOOracle)
    (h : st.bytesWritten + L + 4 > st.maxDiskBytes ∨ st.fpSeq = none)
    (hcap : st.diskFilesCapacity ≠ 0) (hopen : io.openOk = false) :
    writePrep st v L io =
      ({ st with
          fs := fsSeal st.fs st.pathSeq
          senderSeqNum := (st.senderSeqNum + 1) % USIZE
          pathSeq := (st.senderSeqNum + 1) % USIZE },
       some (v, HError.ioError)) := by
  unfold writePrep
  rw [if_pos h, if_neg hcap]
  rw [hopen]
  rfl

/-- `write_to_disk` when the rollover block errors out. -/
theorem writeToDisk_eval_preperr {T : Type} (encode : T → List Nat)
    (st : SenderState T) (v : T) (io : IOOracle) (st₁ : SenderState T)
    (e : T × HError)
    (hprep : writePrep st v (encode v).length io = (st₁, some e)) :
    writeToDisk encode st v io = (st₁, some e) := by
  unfold writeToDisk
  dsimp only
  rw [hprep]

/-- `write_to_disk` after a successful rollover block: the two appends and
their error cases. -/
theorem writeToDisk_eval_write {T : Type} (encode : T → List Nat)
    (st : SenderState T) (v : T) (io : IOOracle) (st₁ : SenderState T)
    (k : Nat)
    (hprep : writePrep st v (encode v).length io = (st₁, none))
    (hfp : st₁.fpSeq = some k) :
    writeToDisk encode st v io =
      if io.writeLenOk then
        if io.writePayloadOk then
          ({ st₁ with
              fs := fsAppend (fsAppend st₁.fs k (be32 (encode v).length)) k
                (encode v)
              bytesWritten := st₁.bytesWritten + (4 + (encode v).length)
              ghostDiskWrites := st₁.ghostDiskWrites + 1 }, none)
        else
          ({ st₁ with fs := fsAppend st₁.fs k (be32 (encode v).length) },
           some (v, HError.ioError))
      else (st₁, some (v, HError.ioError)) := by
  unfold writeToDisk
  dsimp only
  rw [hprep]
  dsimp only
  rw [hfp]

/-- C6 helper: a `write_to_disk` that must roll over while the
remaining-disk-files counter reads 0 returns `(value, Full)`; the only
state changes are the seal of the old path and the sequence-number bump. -/
theorem writeToDisk_full {T : Type} (encode : T → List Nat)
    (st : SenderState T) (v : T) (io : IOOracle)
    (hroll : st.bytesWritten + (encode v).length + 4 > st.maxDiskBytes ∨
      st.fpSeq = none)
    (hcap : st.diskFilesCapacity = 0) :
    writeToDisk encode st v io =
      ({ st with
          fs := fsSeal st.fs st.pathSeq
          senderSeqNum := (st.senderSeqNum + 1) % USIZE
          pathSeq := (st.senderSeqNum + 1) % USIZE },
       some (v, HError.full)) :=
  writeToDisk_eval_preperr encode st v io _ _
    (writePrep_eval_full st v (encode v).length io hroll hcap)

/-- `send` in memory mode when the memory push succeeds. -/
theorem send_eval_mem_push {T : Type} (encode : T → List Nat)
    (st : SenderState T) (v : T) (io : IOOracle)
    (ht : st.totalDiskWrites = 0)
    (hslot : ¬(st.deque.data.getD st.deque.backOffset none).isSome) :
    send encode st v io =
      ({ st with deque :=
          { st.deque with
              data := st.deque.data.set st.deque.backOffset
                (some (Placement.Memory v))
              backOffset := (st.deque.backOffset + 1) % st.deque.capacity
              size := st.deque.size + 1 } }, none) := by
  unfold send
  rw [if_pos ht]
  unfold pushBack
  rw [if_neg hslot]

/-- `send` in memory mode when the push is rejected and the spill to disk
fails: the error propagates. -/
theorem send_eval_mem_spill_err {T : Type} (encode : T → List Nat)
    (st : SenderState T) (v : T) (io : IOOracle) (st' : SenderState T)
    (e : T × HError) (ht : st.totalDiskWrites = 0)
    (hslot : (st.deque.data.getD st.deque.backOffset none).isSome)
    (hw : writeToDisk encode st v io = (st', some e)) :
    send encode st v io = (st', some e) := by
  unfold send
  rw [if_pos ht]
  unfold pushBack
  rw [if_pos hslot]
  dsimp only [Placement.extract]
  rw [show ({ st with deque := st.deque } : SenderState T) = st from rfl, hw]

/-- `send` in memory mode when the push is rejected and the spill to disk
succeeds: `total_disk_writes` becomes 1. -/
theorem send_eval_mem_spill_ok {T : Type} (encode : T → List Nat)
    (st : SenderState T) (v : T) (io : IOOracle) (st' : SenderState T)
    (ht : st.totalDiskWrites = 0)
    (hslot : (st.deque.data.getD st.deque.backOffset none).isSome)
    (hw : writeToDisk encode st v io = (st', none)) :
    send encode st v io =
      ({ st' with totalDiskWrites := st'.totalDiskWrites + 1 }, none) := by
  unfold send
  rw [if_pos ht]
  unfold pushBack
  rw [if_pos hslot]
  dsimp only [Placement.extract]
  rw [show ({ st with deque := st.deque } : SenderState T) = st from rfl, hw]

/-- `send` in disk mode when the disk write fails: the error propagates. -/
theorem send_eval_disk_err {T : Type} (encode : T → List Nat)
    (st : SenderState T) (v : T) (io : IOOracle) (st' : SenderState T)
    (e : T × HError) (ht : ¬st.totalDiskWrites = 0)
    (hw : writeToDisk encode st v io = (st', some e)) :
    send encode st v io = (st', some e) := by
  unfold send
  rw [if_neg ht, hw]

/-- `send` in disk mode when the disk write succeeds and the `Disk` marker
push succeeds: the counter resets. -/
theorem send_eval_disk_ok_push {T : Type} (encode : T → List Nat)
    (st : SenderState T) (v : T) (io : IOOracle) (st' : SenderState T)
    (dq : DequeState (Placement T)) (mw : Bool)
    (ht : ¬st.totalDiskWrites = 0)
    (hw : writeToDisk encode st v io = (st', none))
    (hpb : pushBack st'.deque (Placement.Disk (st'.totalDiskWrites + 1)) =
      (dq, PushResult.ok mw)) :
    send encode st v io =
      ({ st' with deque := dq, totalDiskWrites := 0 }, none) := by
  unfold send
  rw [if_neg ht, hw]
  dsimp only
  rw [hpb]

/-- `send` in disk mode when the disk write succeeds but the `Disk` marker
push is rejected: the counter keeps the new write. -/
theorem send_eval_disk_ok_full {T : Type} (encode : T → List Nat)
    (st : SenderState T) (v : T) (io : IOOracle) (st' : SenderState T)
    (dq : DequeState (Placement T)) (x : Placement T)
    (ht : ¬st.totalDiskWrites = 0)
    (hw : writeToDisk encode st v io = (st', none))
    (hpb : pushBack st'.deque (Placement.Disk (st'.totalDiskWrites + 1)) =
      (dq, PushResult.full x)) :
    send encode st v io =
      ({ st' with totalDiskWrites := st'.totalDiskWrites + 1 }, none) := by
  unfold send
  rw [if_neg ht, hw]
  dsimp only
  rw [hpb]

/-- C6: if during a `send` the producer must roll over to a new queue file
and the remaining-disk-files counter reads 0, `send` returns
`Err((v, Full))` with the exact value passed in, and `v` has been neither
pushed into the deque nor written to any disk file (deque unchanged, all
file contents unchanged, `total_disk_writes` unchanged). -/
theorem send_full_spec {T : Type} (encode : T → List Nat)
    (st : SenderState T) (v : T) (io : IOOracle)
    (hmode : st.totalDiskWrites ≠ 0 ∨
      (st.deque.data.getD st.deque.backOffset none).isSome)
    (hroll : st.bytesWritten + (encode v).length + 4 > st.maxDiskBytes ∨
      st.fpSeq = none)
    (hcap : st.diskFilesCapacity = 0) :
    (send encode st v io).2 = some (v, HError.full) ∧
    (send encode st v io).1.deque = st.deque ∧
    (send encode st v io).1.totalDiskWrites = st.totalDiskWrites ∧
    ∀ k, ((send encode st v io).1.fs k).map QFile.contents =
      (st.fs k).map QFile.contents := by
  have hw := writeToDisk_full encode st v io hroll hcap
  by_cases ht : st.totalDiskWrites = 0
  · have hslot : (st.deque.data.getD st.deque.backOffset none).isSome := by
      rcases hmode with h | h
      · exact absurd ht h
      · exact h
    rw [send_eval_mem_spill_err encode st v io _ _ ht hslot hw]
    exact ⟨rfl, rfl, rfl, fun k => fsSeal_contents st.fs st.pathSeq k⟩
  · rw [send_eval_disk_err encode st v io _ _ ht hw]
    exact ⟨rfl, rfl, rfl, fun k => fsSeal_contents st.fs st.pathSeq k⟩

/-- Witness: `send_full_spec` at a concrete disk-mode state over its file
cap with no disk-file budget left. -/
theorem send_full_spec_witness :
    (send (fun _ : Nat => []) senderWitness 0 ⟨true, true, true⟩).2 =
      some (0, HError.full) ∧
    (send (fun _ : Nat => []) senderWitness 0 ⟨true, true, true⟩).1.deque =
      senderWitness.deque ∧
    (send (fun _ : Nat => []) senderWitness 0
        ⟨true, true, true⟩).1.totalDiskWrites =
      senderWitness.totalDiskWrites ∧
    ∀ k, ((send (fun _ : Nat => []) senderWitness 0
        ⟨true, true, true⟩).1.fs k).map QFile.contents =
      (senderWitness.fs k).map QFile.contents :=
  send_full_spec (fun _ : Nat => []) senderWitness 0 ⟨true, true, true⟩
    (Or.inl (by decide)) (Or.inl (by decide)) rfl

/-- C9: `flush`, when `total_disk_writes > 0` (and a file is open, which
the code asserts), commits the file buffer and attempts to push
`Disk(total_disk_writes)`; it returns `Ok(())` with `total_disk_writes`
reset to 0 exactly when the push succeeds, and returns `Err(NoFlush)` with
`total_disk_writes` unchanged exactly when the deque is full; when
`total_disk_writes == 0` it returns `Ok(())` leaving the state unchanged. -/
theorem flush_spec {T : Type} (st : SenderState T) (k : Nat)
    (hfp : st.fpSeq = some k) :
    (st.totalDiskWrites = 0 → flush st = some (st, none)) ∧
    (st.totalDiskWrites ≠ 0 →
      (∀ dq mw,
        pushBack st.deque (Placement.Disk st.totalDiskWrites) =
          (dq, PushResult.ok mw) →
        flush st =
          some ({ st with deque := dq, totalDiskWrites := 0 }, none)) ∧
      (∀ dq x,
        pushBack st.deque (Placement.Disk st.totalDiskWrites) =
          (dq, PushResult.full x) →
        flush st = some (st, some HError.noFlush))) := by
  constructor
  · intro ht
    unfold flush
    rw [if_neg (by simp [ht])]
  · intro ht
    constructor
    · intro dq mw hpb
      unfold flush
      rw [if_pos ht, hfp]
      simp only [Option.isNone_some, Bool.false_eq_true, if_false]
      rw [hpb]
    · intro dq x hpb
      unfold flush
      rw [if_pos ht, hfp]
      simp only [Option.isNone_some, Bool.false_eq_true, if_false]
      rw [hpb]

/-- Witness: `flush_spec` at a concrete state with no pending disk
writes. -/
theorem flush_spec_witness :
    ({ senderWitness with totalDiskWrites := 0 } :
        SenderState Nat).totalDiskWrites = 0 ∧
    flush ({ senderWitness with totalDiskWrites := 0 } : SenderState Nat) =
      some ({ senderWitness with totalDiskWrites := 0 }, none) :=
  ⟨rfl, (flush_spec { senderWitness with totalDiskWrites := 0 } 0 rfl).1 rfl⟩

/-- Appending the length prefix and then the payload extends the target
file by exactly those bytes, in that order. -/
theorem fsAppend_append_contents (fs : Fs) (k : Nat)
    (prefixBytes payload : List Nat) :
    ((fsAppend (fsAppend fs k prefixBytes) k payload) k).map QFile.contents =
      (fs k).map (fun f => f.contents ++ prefixBytes ++ payload) := by
  cases hf : fs k <;>
    simp [fsAppend, hf, List.append_assoc]

/-- `write_to_disk` when both appends succeed. -/
theorem writeToDisk_eval_success {T : Type} (encode : T → List Nat)
    (st : SenderState T) (v : T) (io : IOOracle) (st₁ : SenderState T)
    (k : Nat)
    (hprep : writePrep st v (encode v).length io = (st₁, none))
    (hfp : st₁.fpSeq = some k)
    (hlen : io.writeLenOk = true) (hpay : io.writePayloadOk = true) :
    writeToDisk encode st v io =
      ({ st₁ with
          fs := fsAppend (fsAppend st₁.fs k (be32 (encode v).length)) k
            (encode v)
          bytesWritten := st₁.bytesWritten + (4 + (encode v).length)
          ghostDiskWrites := st₁.ghostDiskWrites + 1 }, none) := by
  rw [writeToDisk_eval_write encode st v io st₁ k hprep hfp, hlen, hpay,
    if_pos rfl, if_pos rfl]

/-- `write_to_disk` when the length write succeeds but the payload write
fails. -/
theorem writeToDisk_eval_payfail {T : Type} (encode : T → List Nat)
    (st : SenderState T) (v : T) (io : IOOracle) (st₁ : SenderState T)
    (k : Nat)
    (hprep : writePrep st v (encode v).length io = (st₁, none))
    (hfp : st₁.fpSeq = some k)
    (hlen : io.writeLenOk = true) (hpay : io.writePayloadOk = false) :
    writeToDisk encode st v io =
      ({ st₁ with fs := fsAppend st₁.fs k (be32 (encode v).length) },
       some (v, HError.ioError)) := by
  rw [writeToDisk_eval_write encode st v io st₁ k hprep hfp, hlen, hpay,
    if_pos rfl, if_neg (by simp)]

/-- `write_to_disk` when the length write fails. -/
theorem writeToDisk_eval_lenfail {T : Type} (encode : T → List Nat)
    (st : SenderState T) (v : T) (io : IOOracle) (st₁ : SenderState T)
    (k : Nat)
    (hprep : writePrep st v (encode v).length io = (st₁, none))
    (hfp : st₁.fpSeq = some k)
    (hlen : io.writeLenOk = false) :
    writeToDisk encode st v io = (st₁, some (v, HError.ioError)) := by
  rw [writeToDisk_eval_write encode st v io st₁ k hprep hfp, hlen,
    if_neg (by simp)]

/-- Frame of `write_to_disk` when no rollover is needed: the sequence
number, path and open file are untouched, and a successful write adds
`4 + payload_len` to `bytes_written`. -/
theorem writeToDisk_noroll_frame {T : Type} (encode : T → List Nat)
    (st : SenderState T) (v : T) (io : IOOracle)
    (hroll : ¬(st.bytesWritten + (encode v).length + 4 > st.maxDiskBytes ∨
      st.fpSeq = none)) :
    (writeToDisk encode st v io).1.senderSeqNum = st.senderSeqNum ∧
    (writeToDisk encode st v io).1.pathSeq = st.pathSeq ∧
    (writeToDisk encode st v io).1.fpSeq = st.fpSeq ∧
    ((writeToDisk encode st v io).2 = none →
      (writeToDisk encode st v io).1.bytesWritten =
        st.bytesWritten + 4 + (encode v).length) := by
  obtain ⟨-, hfpn⟩ := not_or.mp hroll
  obtain ⟨k, hfp⟩ := Option.ne_none_iff_exists'.mp hfpn
  have hprep := writePrep_eval_noroll st v (encode v).length io hroll
  cases hlen : io.writeLenOk
  · rw [writeToDisk_eval_lenfail encode st v io st k hprep hfp hlen]
    exact ⟨rfl, rfl, rfl, fun h => nomatch h⟩
  · cases hpay : io.writePayloadOk
    · rw [writeToDisk_eval_payfail encode st v io st k hprep hfp hlen hpay]
      exact ⟨rfl, rfl, rfl, fun h => nomatch h⟩
    · rw [writeToDisk_eval_success encode st v io st k hprep hfp hlen hpay]
      exact ⟨rfl, rfl, rfl, fun _ => by dsimp only; omega⟩

/-- Frame of `write_to_disk` when rollover fires: the sequence number is
bumped with wrapping, the path follows it, the file at the old path (if
any) ends up sealed, and a successful write leaves
`bytes_written = 4 + payload_len` (reset to 0, then the new record). -/
theorem writeToDisk_roll_frame {T : Type} (encode : T → List Nat)
    (st : SenderState T) (v : T) (io : IOOracle)
    (hroll : st.bytesWritten + (encode v).length + 4 > st.maxDiskBytes ∨
      st.fpSeq = none) :
    (writeToDisk encode st v io).1.senderSeqNum =
      (st.senderSeqNum + 1) % USIZE ∧
    (writeToDisk encode st v io).1.pathSeq = (st.senderSeqNum + 1) % USIZE ∧
    (∀ f, st.fs st.pathSeq = some f →
      ((writeToDisk encode st v io).1.fs st.pathSeq).map QFile.sealed =
        some true) ∧
    ((writeToDisk encode st v io).2 = none →
      (writeToDisk encode st v io).1.bytesWritten =
        4 + (encode v).length) := by
  by_cases hcap : st.diskFilesCapacity = 0
  · rw [writeToDisk_full encode st v io hroll hcap]
    refine ⟨rfl, rfl, fun f hf => ?_, fun h => by simp at h⟩
    show ((fsSeal st.fs st.pathSeq) st.pathSeq).map QFile.sealed = some true
    rw [fsSeal_of_some st.fs st.pathSeq f hf]
    rfl
  · cases hopen : io.openOk
    · rw [writeToDisk_eval_preperr encode st v io _ _
        (writePrep_eval_openfail st v (encode v).length io hroll hcap hopen)]
      refine ⟨rfl, rfl, fun f hf => ?_, fun h => by simp at h⟩
      show ((fsSeal st.fs st.pathSeq) st.pathSeq).map QFile.sealed = some true
      rw [fsSeal_of_some st.fs st.pathSeq f hf]
      rfl
    · have hprep :=
        writePrep_eval_open st v (encode v).length io hroll hcap hopen
      cases hlen : io.writeLenOk
      · rw [writeToDisk_eval_lenfail encode st v io _
          ((st.senderSeqNum + 1) % USIZE) hprep rfl hlen]
        refine ⟨rfl, rfl, fun f hf => ?_, fun h => nomatch h⟩
        show ((fsCreateAppendOpen (fsSeal st.fs st.pathSeq)
          ((st.senderSeqNum + 1) % USIZE)) st.pathSeq).map QFile.sealed =
            some true
        rw [fsCreateAppendOpen_of_some _ _ _ _
          (fsSeal_of_some st.fs st.pathSeq f hf)]
        rfl
      · cases hpay : io.writePayloadOk
        · rw [writeToDisk_eval_payfail encode st v io _
            ((st.senderSeqNum + 1) % USIZE) hprep rfl hlen hpay]
          refine ⟨rfl, rfl, fun f hf => ?_, fun h => nomatch h⟩
          show ((fsAppend (fsCreateAppendOpen (fsSeal st.fs st.pathSeq)
              ((st.senderSeqNum + 1) % USIZE))
              ((st.senderSeqNum + 1) % USIZE) (be32 (encode v).length))
              st.pathSeq).map QFile.sealed = some true
          rw [fsAppend_sealed,
            fsCreateAppendOpen_of_some _ _ _ _
              (fsSeal_of_some st.fs st.pathSeq f hf)]
          rfl
        · rw [writeToDisk_eval_success encode st v io _
            ((st.senderSeqNum + 1) % USIZE) hprep rfl hlen hpay]
          refine ⟨rfl, rfl, fun f hf => ?_, fun _ => by dsimp only; omega⟩
          show ((fsAppend (fsAppend (fsCreateAppendOpen
              (fsSeal st.fs st.pathSeq) ((st.senderSeqNum + 1) % USIZE))
              ((st.senderSeqNum + 1) % USIZE) (be32 (encode v).length))
              ((st.senderSeqNum + 1) % USIZE) (encode v))
              st.pathSeq).map QFile.sealed = some true
          rw [fsAppend_sealed, fsAppend_sealed,
            fsCreateAppendOpen_of_some _ _ _ _
              (fsSeal_of_some st.fs st.pathSeq f hf)]
          rfl

/-- When the rollover block does not error (either no rollover was needed,
or budget remained and the open succeeded) it leaves an open file. -/
theorem writePrep_ok_of {T : Type} (st : SenderState T) (v : T) (L : Nat)
    (io : IOOracle)
    (hpre : ¬(st.bytesWritten + L + 4 > st.maxDiskBytes ∨ st.fpSeq = none) ∨
      (st.diskFilesCapacity ≠ 0 ∧ io.openOk = true)) :
    ∃ st₁ k, writePrep st v L io = (st₁, none) ∧ st₁.fpSeq = some k := by
  by_cases hroll : st.bytesWritten + L + 4 > st.maxDiskBytes ∨ st.fpSeq = none
  · rcases hpre with h | ⟨hcap, hopen⟩
    · exact absurd hroll h
    · exact ⟨_, (st.senderSeqNum + 1) % USIZE,
        writePrep_eval_open st v L io hroll hcap hopen, rfl⟩
  · obtain ⟨-, hfpn⟩ := not_or.mp hroll
    obtain ⟨k, hfp⟩ := Option.ne_none_iff_exists'.mp hfpn
    exact ⟨st, k, writePrep_eval_noroll st v L io hroll, hfp⟩

/-- A successful `write_to_disk` appended exactly the 4-byte big-endian
length followed by the payload to the open file. -/
theorem writeToDisk_success_append {T : Type} (encode : T → List Nat)
    (st : SenderState T) (v : T) (io : IOOracle)
    (hsucc : (writeToDisk encode st v io).2 = none) :
    ∃ k, (writeToDisk encode st v io).1.fpSeq = some k ∧
      ((writeToDisk encode st v io).1.fs k).map QFile.contents =
        ((writePrep st v (encode v).length io).1.fs k).map
          (fun f => f.contents ++ be32 (encode v).length ++ encode v) := by
  have main : ∀ st₁ k,
      writePrep st v (encode v).length io = (st₁, none) →
      st₁.fpSeq = some k →
      ∃ k', (writeToDisk encode st v io).1.fpSeq = some k' ∧
        ((writeToDisk encode st v io).1.fs k').map QFile.contents =
          ((writePrep st v (encode v).length io).1.fs k').map
            (fun f => f.contents ++ be32 (encode v).length ++ encode v) := by
    intro st₁ k hprep hfp
    cases hlen : io.writeLenOk
    · rw [writeToDisk_eval_lenfail encode st v io st₁ k hprep hfp hlen]
        at hsucc
      exact nomatch hsucc
    · cases hpay : io.writePayloadOk
      · rw [writeToDisk_eval_payfail encode st v io st₁ k hprep hfp hlen hpay]
          at hsucc
        exact nomatch hsucc
      · rw [writeToDisk_eval_success encode st v io st₁ k hprep hfp hlen hpay,
          hprep]
        refine ⟨k, hfp, ?_⟩
        dsimp only
        exact fsAppend_append_contents st₁.fs k (be32 (encode v).length)
          (encode v)
  by_cases hroll : st.bytesWritten + (encode v).length + 4 > st.maxDiskBytes ∨
      st.fpSeq = none
  · by_cases hcap : st.diskFilesCapacity = 0
    · rw [writeToDisk_full encode st v io hroll hcap] at hsucc
      exact nomatch hsucc
    · cases hopen : io.openOk
      · rw [writeToDisk_eval_preperr encode st v io _ _
          (writePrep_eval_openfail st v (encode v).length io hroll hcap
            hopen)] at hsucc
        exact nomatch hsucc
      · exact main _ ((st.senderSeqNum + 1) % USIZE)
          (writePrep_eval_open st v (encode v).length io hroll hcap hopen) rfl
  · obtain ⟨-, hfpn⟩ := not_or.mp hroll
    obtain ⟨k, hfp⟩ := Option.ne_none_iff_exists'.mp hfpn
    exact main st k (writePrep_eval_noroll st v (encode v).length io hroll)
      hfp

/-- Each I/O failure inside `write_to_disk` surfaces as `(value, IoError)`:
a failing open of the fresh rollover file, a failing 4-byte length write,
and a failing payload write. -/
theorem writeToDisk_ioError_spec {T : Type} (encode : T → List Nat)
    (st : SenderState T) (v : T) (io : IOOracle) :
    (((st.bytesWritten + (encode v).length + 4 > st.maxDiskBytes ∨
        st.fpSeq = none) ∧ st.diskFilesCapacity ≠ 0 ∧ io.openOk = false) →
      (writeToDisk encode st v io).2 = some (v, HError.ioError)) ∧
    ((¬(st.bytesWritten + (encode v).length + 4 > st.maxDiskBytes ∨
        st.fpSeq = none) ∨
      (st.diskFilesCapacity ≠ 0 ∧ io.openOk = true)) →
      (io.writeLenOk = false →
        (writeToDisk encode st v io).2 = some (v, HError.ioError)) ∧
      (io.writeLenOk = true → io.writePayloadOk = false →
        (writeToDisk encode st v io).2 = some (v, HError.ioError))) := by
  constructor
  · rintro ⟨hroll, hcap, hopen⟩
    rw [writeToDisk_eval_preperr encode st v io _ _
      (writePrep_eval_openfail st v (encode v).length io hroll hcap hopen)]
  · intro hpre
    obtain ⟨st₁, k, hprep, hfp⟩ :=
      writePrep_ok_of st v (encode v).length io hpre
    constructor
    · intro hlen
      rw [writeToDisk_eval_lenfail encode st v io st₁ k hprep hfp hlen]
    · intro hlen hpay
      rw [writeToDisk_eval_payfail encode st v io st₁ k hprep hfp hlen hpay]

/-- C7: `write_to_disk` performs rollover exactly when no file is open or
`bytes_written + 4 + L` would exceed `max_disk_bytes` (strict: no rollover
when the new size equals the cap exactly); on rollover it seals the old
file, increments the sequence number with wrapping, and (on a successful
write) leaves `bytes_written` reset and equal to `4 + L`; each successful
write appends the 4-byte big-endian length then the `L`-byte payload and
adds `4 + L` to `bytes_written`; and any I/O failure returns
`(value, IoError)`. -/
theorem writeToDisk_spec {T : Type} (encode : T → List Nat)
    (st : SenderState T) (v : T) (io : IOOracle) :
    (¬(st.bytesWritten + (encode v).length + 4 > st.maxDiskBytes ∨
        st.fpSeq = none) →
      (writeToDisk encode st v io).1.senderSeqNum = st.senderSeqNum ∧
      (writeToDisk encode st v io).1.pathSeq = st.pathSeq ∧
      (writeToDisk encode st v io).1.fpSeq = st.fpSeq ∧
      ((writeToDisk encode st v io).2 = none →
        (writeToDisk encode st v io).1.bytesWritten =
          st.bytesWritten + 4 + (encode v).length)) ∧
    ((st.bytesWritten + (encode v).length + 4 > st.maxDiskBytes ∨
        st.fpSeq = none) →
      (writeToDisk encode st v io).1.senderSeqNum =
        (st.senderSeqNum + 1) % USIZE ∧
      (writeToDisk encode st v io).1.pathSeq =
        (st.senderSeqNum + 1) % USIZE ∧
      (∀ f, st.fs st.pathSeq = some f →
        ((writeToDisk encode st v io).1.fs st.pathSeq).map QFile.sealed =
          some true) ∧
      ((writeToDisk encode st v io).2 = none →
        (writeToDisk encode st v io).1.bytesWritten =
          4 + (encode v).length)) ∧
    ((writeToDisk encode st v io).2 = none →
      ∃ k, (writeToDisk encode st v io).1.fpSeq = some k ∧
        ((writeToDisk encode st v io).1.fs k).map QFile.contents =
          ((writePrep st v (encode v).length io).1.fs k).map
            (fun f => f.contents ++ be32 (encode v).length ++ encode v)) ∧
    (((st.bytesWritten + (encode v).length + 4 > st.maxDiskBytes ∨
        st.fpSeq = none) ∧ st.diskFilesCapacity ≠ 0 ∧ io.openOk = false) →
      (writeToDisk encode st v io).2 = some (v, HError.ioError)) ∧
    ((¬(st.bytesWritten + (encode v).length + 4 > st.maxDiskBytes ∨
        st.fpSeq = none) ∨
      (st.diskFilesCapacity ≠ 0 ∧ io.openOk = true)) →
      (io.writeLenOk = false →
        (writeToDisk encode st v io).2 = some (v, HError.ioError)) ∧
      (io.writeLenOk = true → io.writePayloadOk = false →
        (writeToDisk encode st v io).2 = some (v, HError.ioError))) :=
  ⟨fun h => writeToDisk_noroll_frame encode st v io h,
   fun h => writeToDisk_roll_frame encode st v io h,
   fun h => writeToDisk_success_append encode st v io h,
   (writeToDisk_ioError_spec encode st v io).1,
   (writeToDisk_ioError_spec encode st v io).2⟩

/-- Witness: `writeToDisk_spec` at a concrete over-cap state with disk
budget remaining, all I/O succeeding: the sequence number is bumped from 0
to 1 and the fresh file holds one 4-byte record header. -/
theorem writeToDisk_spec_witness :
    (writeToDisk (fun _ : Nat => [])
      { senderWitness with diskFilesCapacity := 1 } 0
      ⟨true, true, true⟩).1.senderSeqNum = 1 ∧
    (writeToDisk (fun _ : Nat => [])
      { senderWitness with diskFilesCapacity := 1 } 0
      ⟨true, true, true⟩).1.bytesWritten = 4 := by
  have h := writeToDisk_spec (fun _ : Nat => [])
    { senderWitness with diskFilesCapacity := 1 } 0 ⟨true, true, true⟩
  have hb := h.2.1 (Or.inl (by decide))
  constructor
  · rw [hb.1]
    decide
  · rw [hb.2.2.2 rfl]
    rfl

/-- Filling an empty slot adds exactly that element's disk-run length to
the deque's disk-run sum. -/
theorem sumDisk_set {T : Type} (l : List (Option (Placement T))) (i : Nat)
    (e : Placement T) (hi : i < l.length) (hnone : l.getD i none = none) :
    ((l.set i (some e)).map diskRun).sum =
      (l.map diskRun).sum + diskRun (some e) := by
  induction l generalizing i with
  | nil => simp at hi
  | cons a as ih =>
    cases i with
    | zero =>
        have ha : a = none := hnone
        subst ha
        simp only [List.set, List.map_cons, List.sum_cons]
        show diskRun (some e) + (as.map diskRun).sum =
          diskRun none + (as.map diskRun).sum + diskRun (some e)
        show diskRun (some e) + (as.map diskRun).sum =
          0 + (as.map diskRun).sum + diskRun (some e)
        omega
    | succ n =>
        have hi' : n < as.length := by simpa using hi
        have hnone' : as.getD n none = none := hnone
        simp only [List.set, List.map_cons, List.sum_cons, ih n hi' hnone']
        omega

/-- `push_back` preserves the deque's structural facts and the run-length
invariant: a successful push of `e` raises the disk-run sum by
`diskRun e`; a rejected push leaves the deque unchanged. -/
theorem pushBack_inv_preserve {T : Type} (q : DequeState (Placement T))
    (e : Placement T)
    (hlen : q.data.length = q.capacity) (hb : q.backOffset < q.capacity)
    (hC : 0 < q.capacity)
    (hmem : ∀ o ∈ q.data, diskEntryPos o) (he : diskEntryPos (some e)) :
    ∀ dq r, pushBack q e = (dq, r) →
      dq.data.length = dq.capacity ∧ dq.backOffset < dq.capacity ∧
      0 < dq.capacity ∧ (∀ o ∈ dq.data, diskEntryPos o) ∧
      ((∃ mw, r = PushResult.ok mw) →
        sumDisk dq = sumDisk q + diskRun (some e)) ∧
      ((∃ x, r = PushResult.full x) → dq = q) := by
  intro dq r hpb
  unfold pushBack at hpb
  by_cases hslot : (q.data.getD q.backOffset none).isSome
  · rw [if_pos hslot] at hpb
    injection hpb with h1 h2
    subst h1
    subst h2
    refine ⟨hlen, hb, hC, hmem, ?_, fun _ => rfl⟩
    rintro ⟨mw, hmw⟩
    exact nomatch hmw
  · rw [if_neg hslot] at hpb
    have hnone : q.data.getD q.backOffset none = none :=
      Option.not_isSome_iff_eq_none.mp hslot
    injection hpb with h1 h2
    subst h1
    subst h2
    refine ⟨by simp [List.length_set, hlen], Nat.mod_lt _ hC, hC, ?_, ?_, ?_⟩
    · intro o ho
      rcases List.mem_or_eq_of_mem_set ho with h' | h'
      · exact hmem o h'
      · subst h'; exact he
    · intro _
      exact sumDisk_set q.data q.backOffset e (hlen ▸ hb) hnone
    · rintro ⟨x, hx⟩
      exact nomatch hx

/-- `write_to_disk` never touches the deque or `total_disk_writes`, and
bumps the disk-write history counter exactly when it succeeds. -/
theorem writeToDisk_effects {T : Type} (encode : T → List Nat)
    (st : SenderState T) (v : T) (io : IOOracle) :
    (writeToDisk encode st v io).1.deque = st.deque ∧
    (writeToDisk encode st v io).1.totalDiskWrites = st.totalDiskWrites ∧
    ((writeToDisk encode st v io).2 = none →
      (writeToDisk encode st v io).1.ghostDiskWrites =
        st.ghostDiskWrites + 1) ∧
    (∀ e, (writeToDisk encode st v io).2 = some e →
      (writeToDisk encode st v io).1.ghostDiskWrites =
        st.ghostDiskWrites) := by
  have main : ∀ st₁ k,
      writePrep st v (encode v).length io = (st₁, none) →
      st₁.fpSeq = some k →
      st₁.deque = st.deque → st₁.totalDiskWrites = st.totalDiskWrites →
      st₁.ghostDiskWrites = st.ghostDiskWrites →
      (writeToDisk encode st v io).1.deque = st.deque ∧
      (writeToDisk encode st v io).1.totalDiskWrites = st.totalDiskWrites ∧
      ((writeToDisk encode st v io).2 = none →
        (writeToDisk encode st v io).1.ghostDiskWrites =
          st.ghostDiskWrites + 1) ∧
      (∀ e, (writeToDisk encode st v io).2 = some e →
        (writeToDisk encode st v io).1.ghostDiskWrites =
          st.ghostDiskWrites) := by
    intro st₁ k hprep hfp hdq htot hgh
    cases hlen : io.writeLenOk
    · rw [writeToDisk_eval_lenfail encode st v io st₁ k hprep hfp hlen]
      refine ⟨hdq, htot, ?_, ?_⟩
      · intro h; exact nomatch h
      · intro e _; exact hgh
    · cases hpay : io.writePayloadOk
      · rw [writeToDisk_eval_payfail encode st v io st₁ k hprep hfp hlen hpay]
        refine ⟨hdq, htot, ?_, ?_⟩
        · intro h; exact nomatch h
        · intro e _; exact hgh
      · rw [writeToDisk_eval_success encode st v io st₁ k hprep hfp hlen hpay]
        refine ⟨hdq, htot, ?_, ?_⟩
        · intro _
          show st₁.ghostDiskWrites + 1 = st.ghostDiskWrites + 1
          omega
        · intro e h; exact nomatch h
  by_cases hroll : st.bytesWritten + (encode v).length + 4 > st.maxDiskBytes ∨
      st.fpSeq = none
  · by_cases hcap : st.diskFilesCapacity = 0
    · rw [writeToDisk_full encode st v io hroll hcap]
      refine ⟨rfl, rfl, ?_, ?_⟩
      · intro h; exact nomatch h
      · intro e _; rfl
    · cases hopen : io.openOk
      · rw [writeToDisk_eval_preperr encode st v io _ _
          (writePrep_eval_openfail st v (encode v).length io hroll hcap
            hopen)]
        refine ⟨rfl, rfl, ?_, ?_⟩
        · intro h; exact nomatch h
        · intro e _; rfl
      · exact main _ ((st.senderSeqNum + 1) % USIZE)
          (writePrep_eval_open st v (encode v).length io hroll hcap hopen)
          rfl rfl rfl rfl
  · obtain ⟨-, hfpn⟩ := not_or.mp hroll
    obtain ⟨k, hfp⟩ := Option.ne_none_iff_exists'.mp hfpn
    exact main st k (writePrep_eval_noroll st v (encode v).length io hroll)
      hfp rfl rfl rfl

/-- Every state the producer-side step relation reaches satisfies the
producer-side invariant. -/
theorem reach_sendInv {T : Type} (encode : T → List Nat)
    (st : SenderState T) (h : Reach encode st) : SendInv st := by
  induction h with
  | init maxDiskBytes capacity fs diskFilesCapacity fpSeq seqNum pathSeq hC =>
      refine ⟨by simp [dequeInit], by simpa [dequeInit] using hC, hC, ?_, ?_⟩
      · intro o ho
        have ho' : o ∈ List.replicate capacity (none : Option (Placement T)) := by
          simpa [dequeInit] using ho
        rw [List.eq_of_mem_replicate ho']
        trivial
      · simp [sumDisk, dequeInit, diskRun]
  | stepSend st v io _hr ih =>
      obtain ⟨hlen, hb, hC, hmem, hghost⟩ := ih
      obtain ⟨hdq, htot, hgok, hgerr⟩ := writeToDisk_effects encode st v io
      by_cases ht : st.totalDiskWrites = 0
      · by_cases hslot :
          (st.deque.data.getD st.deque.backOffset none).isSome
        · rcases hw2 : (writeToDisk encode st v io).2 with _ | e
          · have hw : writeToDisk encode st v io =
                ((writeToDisk encode st v io).1, none) := by rw [← hw2]
            rw [send_eval_mem_spill_ok encode st v io _ ht hslot hw]
            refine ⟨by rw [hdq]; exact hlen, by rw [hdq]; exact hb,
              by rw [hdq]; exact hC, by rw [hdq]; exact hmem, ?_⟩
            show (writeToDisk encode st v io).1.ghostDiskWrites =
              sumDisk (writeToDisk encode st v io).1.deque +
                ((writeToDisk encode st v io).1.totalDiskWrites + 1)
            rw [hgok hw2, hdq, htot]
            omega
          · have hw : writeToDisk encode st v io =
                ((writeToDisk encode st v io).1, some e) := by rw [← hw2]
            rw [send_eval_mem_spill_err encode st v io _ _ ht hslot hw]
            exact ⟨by rw [hdq]; exact hlen, by rw [hdq]; exact hb,
              by rw [hdq]; exact hC, by rw [hdq]; exact hmem,
              by rw [hgerr e hw2, hdq, htot]; exact hghost⟩
        · rw [send_eval_mem_push encode st v io ht hslot]
          have hnone : st.deque.data.getD st.deque.backOffset none = none :=
            Option.not_isSome_iff_eq_none.mp hslot
          refine ⟨by simp [List.length_set, hlen], Nat.mod_lt _ hC, hC,
            ?_, ?_⟩
          · intro o ho
            rcases List.mem_or_eq_of_mem_set ho with h' | h'
            · exact hmem o h'
            · subst h'; trivial
          · show st.ghostDiskWrites =
              ((st.deque.data.set st.deque.backOffset
                (some (Placement.Memory v))).map diskRun).sum +
                st.totalDiskWrites
            rw [sumDisk_set st.deque.data st.deque.backOffset
              (Placement.Memory v) (hlen ▸ hb) hnone]
            show st.ghostDiskWrites =
              (st.deque.data.map diskRun).sum + 0 + st.totalDiskWrites
            have : sumDisk st.deque = (st.deque.data.map diskRun).sum := rfl
            omega
      · rcases hw2 : (writeToDisk encode st v io).2 with _ | e
        · have hw : writeToDisk encode st v io =
              ((writeToDisk encode st v io).1, none) := by rw [← hw2]
          rcases hpb : pushBack (writeToDisk encode st v io).1.deque
              (Placement.Disk
                ((writeToDisk encode st v io).1.totalDiskWrites + 1))
            with ⟨dq, pr⟩
          have hinv := pushBack_inv_preserve
            (writeToDisk encode st v io).1.deque
            (Placement.Disk
              ((writeToDisk encode st v io).1.totalDiskWrites + 1))
            (by rw [hdq]; exact hlen) (by rw [hdq]; exact hb)
            (by rw [hdq]; exact hC) (by rw [hdq]; exact hmem)
            (by show 1 ≤ (writeToDisk encode st v io).1.totalDiskWrites + 1
                omega)
            dq pr hpb
          cases pr with
          | ok mw =>
              rw [send_eval_disk_ok_push encode st v io _ dq mw ht hw hpb]
              refine ⟨hinv.1, hinv.2.1, hinv.2.2.1, hinv.2.2.2.1, ?_⟩
              show (writeToDisk encode st v io).1.ghostDiskWrites =
                sumDisk dq + 0
              rw [hinv.2.2.2.2.1 ⟨mw, rfl⟩, hgok hw2, hdq, htot]
              show st.ghostDiskWrites + 1 =
                sumDisk st.deque + diskRun (some (Placement.Disk
                  (st.totalDiskWrites + 1))) + 0
              show st.ghostDiskWrites + 1 =
                sumDisk st.deque + (st.totalDiskWrites + 1) + 0
              omega
          | full x =>
              rw [send_eval_disk_ok_full encode st v io _ dq x ht hw hpb]
              refine ⟨by rw [hdq]; exact hlen, by rw [hdq]; exact hb,
                by rw [hdq]; exact hC, by rw [hdq]; exact hmem, ?_⟩
              show (writeToDisk encode st v io).1.ghostDiskWrites =
                sumDisk (writeToDisk encode st v io).1.deque +
                  ((writeToDisk encode st v io).1.totalDiskWrites + 1)
              rw [hgok hw2, hdq, htot]
              omega
        · have hw : writeToDisk encode st v io =
              ((writeToDisk encode st v io).1, some e) := by rw [← hw2]
          rw [send_eval_disk_err encode st v io _ _ ht hw]
          exact ⟨by rw [hdq]; exact hlen, by rw [hdq]; exact hb,
            by rw [hdq]; exact hC, by rw [hdq]; exact hmem,
            by rw [hgerr e hw2, hdq, htot]; exact hghost⟩
  | stepFlush st st' e hr heq ih =>
      obtain ⟨hlen, hb, hC, hmem, hghost⟩ := ih
      unfold flush at heq
      by_cases ht : st.totalDiskWrites = 0
      · rw [if_neg (by simp [ht])] at heq
        obtain ⟨rfl, -⟩ : st = st' ∧ none = e := by
          have := Option.some.inj heq
          exact ⟨congrArg Prod.fst this, congrArg Prod.snd this⟩
        exact ⟨hlen, hb, hC, hmem, hghost⟩
      · rw [if_pos ht] at heq
        cases hfp : st.fpSeq.isNone
        · rw [hfp] at heq
          simp only [Bool.false_eq_true, if_false] at heq
          rcases hpb : pushBack st.deque (Placement.Disk st.totalDiskWrites)
            with ⟨dq, pr⟩
          rw [hpb] at heq
          have hinv := pushBack_inv_preserve st.deque
            (Placement.Disk st.totalDiskWrites) hlen hb hC hmem
            (by show 1 ≤ st.totalDiskWrites; omega) dq pr hpb
          cases pr with
          | ok mw =>
              obtain ⟨rfl, -⟩ :
                  ({ st with deque := dq, totalDiskWrites := 0 } :
                    SenderState T) = st' ∧ none = e := by
                have := Option.some.inj heq
                exact ⟨congrArg Prod.fst this, congrArg Prod.snd this⟩
              refine ⟨hinv.1, hinv.2.1, hinv.2.2.1, hinv.2.2.2.1, ?_⟩
              show st.ghostDiskWrites = sumDisk dq + 0
              rw [hinv.2.2.2.2.1 ⟨mw, rfl⟩]
              show st.ghostDiskWrites =
                sumDisk st.deque + diskRun (some (Placement.Disk
                  st.totalDiskWrites)) + 0
              show st.ghostDiskWrites =
                sumDisk st.deque + st.totalDiskWrites + 0
              omega
          | full x =>
              obtain ⟨rfl, -⟩ : st = st' ∧ some HError.noFlush = e := by
                have := Option.some.inj heq
                exact ⟨congrArg Prod.fst this, congrArg Prod.snd this⟩
              exact ⟨hlen, hb, hC, hmem, hghost⟩
        · rw [hfp] at heq
          simp at heq

/-- C8: every state reachable by the producer-side step relation (send and
flush, from an empty deque with `total_disk_writes = 0`) satisfies: every
non-`Memory` entry in the deque is `Disk(n)` with `n ≥ 1`, and the total
count of values written to disk equals the sum of `n` over all `Disk(n)`
entries currently in the deque plus `total_disk_writes`. -/
theorem reach_disk_invariant {T : Type} (encode : T → List Nat)
    (st : SenderState T) (h : Reach encode st) :
    (∀ o ∈ st.deque.data, diskEntryPos o) ∧
    st.ghostDiskWrites = sumDisk st.deque + st.totalDiskWrites :=
  ⟨(reach_sendInv encode st h).2.2.2.1, (reach_sendInv encode st h).2.2.2.2⟩

/-- Witness: `reach_disk_invariant` at a concrete initial state. -/
theorem reach_disk_invariant_witness :
    (∀ o ∈ reachWitnessState.deque.data, diskEntryPos o) ∧
    reachWitnessState.ghostDiskWrites =
      sumDisk reachWitnessState.deque + reachWitnessState.totalDiskWrites :=
  reach_disk_invariant (fun _ : Nat => []) reachWitnessState
    (Reach.init 5 1 (fun _ => none) 2 (some 0) 0 0 (by decide))

end Hopper
